import Mathlib

/-!
Shallow embedding of the violation-checking engine of the `pks` pack-boundary
tool: the `check_all` reconciliation pipeline (`src/packs/checker.rs`), the
privacy checker (`src/packs/checker/privacy.rs`), the unnecessary-dependency
analyzer (`src/packs/checker.rs`) and the dependents query
(`src/packs/dependents.rs`).

Modelling conventions:
* Rust `String` is Lean `String`; `str::starts_with` is modelled as prefix of
  the underlying character lists.
* `PathBuf` values that are only compared component-wise (the absolute working
  set and `absolute_root` in `build_stale_violations`) are `List String`
  (their components); `Path::strip_prefix` is component-wise prefix removal
  and `to_str` joins with "/".  `PathBuf` values that the source immediately
  converts to strings (`public_folder`) are plain `String`s.
* `HashSet<T>` with structural equality is `Finset T`; `HashMap` built by
  repeated `entry`/`or_insert` updates is a total function with pointwise
  update (absent key = default), except where entry *presence* is observable
  (`get_unnecessary_dependencies`), where it is an association list.
* Fallible Rust code (`anyhow::Result`) is `Except String`; a panic
  (`unwrap`) is an `Option` layer, `none` meaning the panic was reached.
* Trait objects `dyn CheckerInterface` are records of functions.
* `ViolationIdentifier` follows the struct declared in `src/packs/checker.rs`
  (five string fields, equality over exactly those).
-/

namespace Pks

/-- The identity of a violation, from `src/packs/checker.rs`. -/
structure ViolationIdentifier where
  violation_type : String
  file : String
  constant_name : String
  referencing_pack_name : String
  defining_pack_name : String
deriving DecidableEq

/-- A violation: display message plus identity, from `src/packs/checker.rs`.
Equality is structural (message included). -/
structure Violation where
  message : String
  identifier : ViolationIdentifier
deriving DecidableEq

/-- The tri-state enforcement setting of a pack (`CheckerSetting` in the
source: `False` / `True` / `Strict`). -/
inductive CheckerSetting where
  | off
  | on
  | strict
deriving DecidableEq

/-- `CheckerSetting::is_false`. -/
def CheckerSetting.is_false : CheckerSetting → Bool
  | .off => true
  | _ => false

/-- `CheckerSetting::is_strict`. -/
def CheckerSetting.is_strict : CheckerSetting → Bool
  | .strict => true
  | _ => false

/-- One violation group of a pack's persisted baseline (`package_todo.yml`):
the set of violation-type strings recorded for one constant. -/
structure ViolationGroup where
  violation_types : List String
deriving DecidableEq

/-- A pack's persisted baseline: defining-pack-name to (constant-name to
violation group), as iterated by `find_dependents`. -/
structure PackageTodo where
  violations_by_defining_pack : List (String × List (String × ViolationGroup))
deriving DecidableEq

/-- A pack, with the fields read by the code under verification. -/
structure Pack where
  name : String
  relative_path : String
  dependencies : List String
  enforce_privacy : Option CheckerSetting
  ignored_private_constants : List String
  private_constants : List String
  public_folder : Option String
  package_todo : PackageTodo
deriving DecidableEq

/-- Modelled from the spec: the pack's effective privacy enforcement is the
tri-state setting, `Off` when unset (`Pack::enforce_privacy()` lives outside
the given sources). -/
def Pack.enforcePrivacy (p : Pack) : CheckerSetting :=
  p.enforce_privacy.getD CheckerSetting.off

/-- Modelled from the spec: the pack's public folder defaults to
`<relative_path>/app/public` unless overridden (`Pack::public_folder()` lives
outside the given sources). -/
def Pack.publicFolder (p : Pack) : String :=
  p.public_folder.getD (p.relative_path ++ "/app/public")

/-- The full pack collection plus the flattened baseline.  The baseline
`HashSet` is carried as its (duplicate-free) iteration sequence, since the
reconciliation code only iterates it and tests membership. -/
structure PackSet where
  packs : List Pack
  all_violations : List ViolationIdentifier

/-- Modelled from the spec: `PackSet::for_pack` looks a pack up by name and
fails when it is absent (absence is an error, not a silent skip). -/
def PackSet.forPack (ps : PackSet) (name : String) : Except String Pack :=
  match ps.packs.find? (fun p => p.name == name) with
  | some p => Except.ok p
  | none => Except.error ("Pack " ++ name ++ " not found")

/-- The configuration fields consumed by the code under verification. -/
structure Configuration where
  pack_set : PackSet
  absolute_root : List String
  ignore_recorded_violations : Bool

/-- A source location (1-based line and column). -/
structure SourceLocation where
  line : Nat
  column : Nat
deriving DecidableEq

/-- One observed constant reference, from `src/packs/checker/reference.rs`
(field set as used by the given sources and their tests). -/
structure Reference where
  constant_name : String
  defining_pack_name : Option String
  referencing_pack_name : String
  relative_referencing_file : String
  relative_defining_file : Option String
  source_location : SourceLocation
deriving DecidableEq

/-- Modelled from the spec: resolve the referencing pack by name in the pack
set; failure when the pack does not exist. -/
def Reference.referencingPack (r : Reference) (ps : PackSet) :
    Except String Pack :=
  ps.forPack r.referencing_pack_name

/-- Modelled from the spec: resolve the defining pack; `none` when the
reference's defining pack is unresolved, an error when the named pack does
not exist in the pack set. -/
def Reference.definingPack (r : Reference) (ps : PackSet) :
    Except String (Option Pack) :=
  match r.defining_pack_name with
  | none => Except.ok none
  | some n => (ps.forPack n).map some

/-- A checker, i.e. one `dyn CheckerInterface` trait object: the three
capabilities of `src/packs/checker.rs`. -/
structure CheckerInterface where
  check : Reference → Configuration → Except String (Option Violation)
  is_strict_mode_violation :
    ViolationIdentifier → Configuration → Except String Bool
  violation_type : String

/-- Rust `str::starts_with pre` on `s`, as character-list prefix. -/
def startsWithStr (s pre : String) : Bool :=
  pre.data.isPrefixOf s.data

/-- The violation value built at the end of `privacy::Checker::check`
(message format string and identifier construction). -/
def privacyViolationFor (reference : Reference)
    (referencing_pack defining_pack : Pack) : Violation :=
  { message := reference.relative_referencing_file ++ ":"
      ++ toString reference.source_location.line ++ ":"
      ++ toString reference.source_location.column
      ++ "\nPrivacy violation: `" ++ reference.constant_name
      ++ "` is private to `" ++ defining_pack.name
      ++ "`, but referenced from `" ++ referencing_pack.name ++ "`"
    identifier :=
      { violation_type := "privacy"
        file := reference.relative_referencing_file
        constant_name := reference.constant_name
        referencing_pack_name := referencing_pack.name
        defining_pack_name := defining_pack.name } }

/-- `privacy::Checker::check` from `src/packs/checker/privacy.rs`, with the
early returns of the source rendered as nested branches, in source order. -/
def privacy_check (reference : Reference) (configuration : Configuration) :
    Except String (Option Violation) := do
  let referencing_pack ← reference.referencingPack configuration.pack_set
  let defining_pack_opt ← reference.definingPack configuration.pack_set
  match defining_pack_opt with
  | none => pure none
  | some defining_pack =>
    if defining_pack.enforcePrivacy.is_false then
      pure none
    else if reference.constant_name ∈ defining_pack.ignored_private_constants
    then
      pure none
    else
      match reference.relative_defining_file with
      | none => pure none
      | some defining_file =>
        if referencing_pack.name = defining_pack.name then
          pure none
        else if startsWithStr defining_file defining_pack.publicFolder then
          pure none
        else if defining_pack.private_constants.isEmpty then
          pure (some
            (privacyViolationFor reference referencing_pack defining_pack))
        else if reference.constant_name ∈ defining_pack.private_constants
            ∨ defining_pack.private_constants.any
                (fun pc => startsWithStr reference.constant_name (pc ++ "::"))
        then
          pure (some
            (privacyViolationFor reference referencing_pack defining_pack))
        else
          pure none

/-- `privacy::Checker::is_strict_mode_violation`: resolve the defining pack
of the identifier and report whether its enforcement is strict. -/
def privacy_is_strict_mode_violation (violation : ViolationIdentifier)
    (configuration : Configuration) : Except String Bool := do
  let defining_pack ←
    configuration.pack_set.forPack violation.defining_pack_name
  pure defining_pack.enforcePrivacy.is_strict

/-- The privacy checker as a `CheckerInterface` value. -/
def privacyChecker : CheckerInterface :=
  { check := privacy_check
    is_strict_mode_violation := privacy_is_strict_mode_violation
    violation_type := "privacy" }

/-- `CheckAllBuilder::build_reportable_violations`: when
`ignore_recorded_violations` is set all found violations are reportable,
otherwise those whose identifier is not in the baseline. -/
def build_reportable_violations (configuration : Configuration)
    (found : Finset Violation)
    (recorded : List ViolationIdentifier) : Finset Violation :=
  if configuration.ignore_recorded_violations then
    found
  else
    found.filter (fun v => v.identifier ∉ recorded)

/-- `Path::strip_prefix` on component lists: the remainder when `root` is a
component-wise prefix of `p`, `none` otherwise. -/
def stripComponents : List String → List String → Option (List String)
  | [], p => some p
  | _ :: _, [] => none
  | a :: as, b :: bs => if a = b then stripComponents as bs else none

/-- Joining path components back into the string `Path::to_str` yields. -/
def pathToStr (p : List String) : String :=
  String.intercalate "/" p

/-- Strip `root` from every working-set path and render each remainder as a
string; `none` models the `unwrap()` panic on the first path that is not
under `root`. -/
def stripAllComponents (root : List String) :
    List (List String) → Option (List String)
  | [] => some []
  | p :: ps => do
    let r ← stripComponents root p
    let rs ← stripAllComponents root ps
    pure (pathToStr r :: rs)

/-- `CheckAllBuilder::build_stale_violations`: baseline entries whose file is
among the root-relative renderings of the working set and whose identifier is
not among the found violations' identifiers.  `none` models the panic when
some working-set path is not under the absolute root. -/
def build_stale_violations (configuration : Configuration)
    (absolute_paths : List (List String)) (found : Finset Violation)
    (recorded : List ViolationIdentifier) :
    Option (List ViolationIdentifier) :=
  match stripAllComponents configuration.absolute_root absolute_paths with
  | none => none
  | some relative_files =>
    some (recorded.filter (fun v =>
      decide (v.file ∈ relative_files
        ∧ v ∉ found.image Violation.identifier)))

/-- The checker index of `build_strict_mode_violations`: a `HashMap` built
from `(violation_type, checker)` pairs, so with duplicate keys the last
insertion wins. -/
def indexedChecker (checkers : List CheckerInterface) (t : String) :
    Option CheckerInterface :=
  (checkers.filter (fun c => c.violation_type == t)).getLast?

/-- The `try_fold` of `CheckAllBuilder::build_strict_mode_violations` over
the baseline entries: route each entry by `violation_type` to its checker
(error if none), keep it when `is_strict_mode_violation` is true, propagate
any error. -/
def buildStrictGo (checkers : List CheckerInterface)
    (configuration : Configuration) :
    List ViolationIdentifier → Except String (List ViolationIdentifier)
  | [] => Except.ok []
  | v :: vs =>
    match indexedChecker checkers v.violation_type with
    | none =>
      Except.error ("Checker for violation type " ++ v.violation_type
        ++ " not found")
    | some c => do
      let b ← c.is_strict_mode_violation v configuration
      let rest ← buildStrictGo checkers configuration vs
      pure (if b then v :: rest else rest)

/-- `CheckAllBuilder::build_strict_mode_violations`. -/
def build_strict_mode_violations (checkers : List CheckerInterface)
    (configuration : Configuration)
    (recorded : List ViolationIdentifier) :
    Except String (List ViolationIdentifier) :=
  buildStrictGo checkers configuration recorded

/-- The inner loop of `get_all_violations`: fold one checker over all
references, inserting every `Some` result into the accumulator set, aborting
on the first error. -/
def checkRefsFold (c : CheckerInterface) (configuration : Configuration)
    (acc : Finset Violation) :
    List Reference → Except String (Finset Violation)
  | [] => Except.ok acc
  | r :: rs =>
    match c.check r configuration with
    | Except.error e => Except.error e
    | Except.ok none => checkRefsFold c configuration acc rs
    | Except.ok (some v) => checkRefsFold c configuration (insert v acc) rs

/-- `get_all_violations` from `src/packs/checker.rs`: per-checker `try_fold`
into local sets, then `try_reduce` by union. -/
def get_all_violations (checkers : List CheckerInterface)
    (references : List Reference) (configuration : Configuration) :
    Except String (Finset Violation) :=
  match checkers with
  | [] => Except.ok ∅
  | c :: cs => do
    let s ← checkRefsFold c configuration ∅ references
    let rest ← get_all_violations cs references configuration
    pure (s ∪ rest)

/-- Fold one work partition of checker-by-reference pairs into a local
violation set. -/
def pairsFold (configuration : Configuration) (acc : Finset Violation) :
    List (CheckerInterface × Reference) → Except String (Finset Violation)
  | [] => Except.ok acc
  | p :: ps =>
    match p.1.check p.2 configuration with
    | Except.error e => Except.error e
    | Except.ok none => pairsFold configuration acc ps
    | Except.ok (some v) => pairsFold configuration (insert v acc) ps

/-- The parallel phase under an arbitrary partitioning of the
checker-by-reference work: fold each partition locally, then union the
partial sets. -/
def partitionedRun (configuration : Configuration) :
    List (List (CheckerInterface × Reference)) →
    Except String (Finset Violation)
  | [] => Except.ok ∅
  | part :: parts => do
    let s ← pairsFold configuration ∅ part
    let rest ← partitionedRun configuration parts
    pure (s ∪ rest)

/-- All checker-by-reference work items. -/
def allPairs (checkers : List CheckerInterface)
    (references : List Reference) : List (CheckerInterface × Reference) :=
  (checkers.map (fun c => references.map (fun r => (c, r)))).flatten

/-- The result record of `check_all`. -/
structure CheckAllResult where
  reportable_violations : Finset Violation
  stale_violations : List ViolationIdentifier
  strict_mode_violations : List ViolationIdentifier

/-- `CheckAllBuilder::build`: assemble the three buckets from the found
violations and the baseline.  The outer `Option` models the panic reachable
inside `build_stale_violations`; the `Except` the recoverable errors. -/
def checkAllBuild (configuration : Configuration)
    (checkers : List CheckerInterface)
    (absolute_paths : List (List String)) (violations : Finset Violation) :
    Option (Except String CheckAllResult) :=
  let recorded := configuration.pack_set.all_violations
  match build_stale_violations configuration absolute_paths violations
      recorded with
  | none => none
  | some stale =>
    match build_strict_mode_violations checkers configuration recorded with
    | Except.error e => some (Except.error e)
    | Except.ok strict =>
      some (Except.ok
        { reportable_violations :=
            build_reportable_violations configuration violations recorded
          stale_violations := stale
          strict_mode_violations := strict })

/-- The edge-usage counter of `get_unnecessary_dependencies`: a `HashMap`
keyed by `(referencing_pack, defining_pack)` as a total function (absent key
= 0), incremented for every reference with a resolved defining pack. -/
def edge_counts (references : List Reference) : String × String → Nat :=
  references.foldl
    (fun m r =>
      match r.defining_pack_name with
      | none => m
      | some d =>
        fun e =>
          if e = (r.referencing_pack_name, d) then m e + 1 else m e)
    (fun _ => 0)

/-- `HashMap::entry(k).or_default().push(d)` on an association list: append
`d` to the entry of `k`, creating the entry when absent. -/
def pushEntry : List (Pack × List String) → Pack → String →
    List (Pack × List String)
  | [], p, d => [(p, [d])]
  | (q, l) :: rest, p, d =>
    if q = p then (q, l ++ [d]) :: rest else (q, l) :: pushEntry rest p d

/-- Association-list lookup for the unnecessary-dependency map. -/
def lookupEntry : List (Pack × List String) → Pack → Option (List String)
  | [], _ => none
  | (q, l) :: rest, p => if q = p then some l else lookupEntry rest p

/-- `get_unnecessary_dependencies` from `src/packs/checker.rs`, parametrised
by the reference list the external extractor returns: count edge usage, then
record every declared dependency whose edge count is zero. -/
def get_unnecessary_dependencies (packs : List Pack)
    (references : List Reference) : List (Pack × List String) :=
  let ec := edge_counts references
  packs.foldl
    (fun acc p =>
      p.dependencies.foldl
        (fun acc d =>
          if ec (p.name, d) = 0 then pushEntry acc p d else acc)
        acc)
    []

/-- The number of references from pack `P` to a resolved defining pack `D`
(unresolved defining packs never match). -/
def refCount (references : List Reference) (e : String × String) : Nat :=
  (references.filter (fun r =>
    decide (r.referencing_pack_name = e.1
      ∧ r.defining_pack_name = some e.2))).length

/-- The result record of `find_dependents`.  The two nested `HashMap`s are
total functions with default 0, since the claims under verification observe
them only through their counts. -/
structure Dependents where
  public_dependents : List String
  violation_dependents : String → String → Nat

/-- Increment one cell of the nested violation-dependents counter. -/
def bumpMap (m : String → String → Nat) (p t : String) :
    String → String → Nat :=
  fun q u => if q = p ∧ u = t then m q u + 1 else m q u

/-- Innermost loop of `find_dependents`: one count per violation type of one
violation group. -/
def addGroupTypes (pname : String) (ts : List String)
    (m : String → String → Nat) : String → String → Nat :=
  ts.foldl (fun m t => bumpMap m pname t) m

/-- Loop over the violation groups of one baseline entry. -/
def addGroups (pname : String) (gs : List (String × ViolationGroup))
    (m : String → String → Nat) : String → String → Nat :=
  gs.foldl (fun m cg => addGroupTypes pname cg.2.violation_types m) m

/-- Contribution of one pack to the violation-dependents counter: skip the
target pack itself, and aggregate the baseline entries keyed by the target. -/
def addPack (target : String) (cp : Pack) (m : String → String → Nat) :
    String → String → Nat :=
  if cp.name = target then m
  else
    cp.package_todo.violations_by_defining_pack.foldl
      (fun m kv => if kv.1 = target then addGroups cp.name kv.2 m else m) m

/-- The violation-dependents counter of `find_dependents`. -/
def violationDependentsMap (packs : List Pack) (target : String) :
    String → String → Nat :=
  packs.foldl (fun m cp => addPack target cp m) (fun _ _ => 0)

/-- `find_dependents` from `src/packs/dependents.rs`. -/
def find_dependents (configuration : Configuration) (pack_name : String) :
    Except String Dependents := do
  let pack ← configuration.pack_set.forPack pack_name
  let public_dependents :=
    List.insertionSort (· ≤ ·)
      ((configuration.pack_set.packs.filter (fun p =>
        decide (p.name ≠ pack.name ∧ pack.name ∈ p.dependencies))).map
        Pack.name)
  pure
    { public_dependents := public_dependents
      violation_dependents :=
        violationDependentsMap configuration.pack_set.packs pack.name }

/-- Sample pack `packs/bar`: privacy enforced, no ignore/private lists. -/
def samplePackBar : Pack :=
  { name := "packs/bar"
    relative_path := "packs/bar"
    dependencies := []
    enforce_privacy := some CheckerSetting.on
    ignored_private_constants := []
    private_constants := []
    public_folder := none
    package_todo := { violations_by_defining_pack := [] } }

/-- Sample pack `packs/baz`: `::Baz` both ignored and declared private. -/
def samplePackBaz : Pack :=
  { name := "packs/baz"
    relative_path := "packs/baz"
    dependencies := []
    enforce_privacy := some CheckerSetting.on
    ignored_private_constants := ["::Baz"]
    private_constants := ["::Baz"]
    public_folder := none
    package_todo := { violations_by_defining_pack := [] } }

/-- Sample pack `packs/foo`: depends on `packs/bar`, holds one baseline
privacy violation against it. -/
def samplePackFoo : Pack :=
  { name := "packs/foo"
    relative_path := "packs/foo"
    dependencies := ["packs/bar"]
    enforce_privacy := none
    ignored_private_constants := []
    private_constants := []
    public_folder := none
    package_todo :=
      { violations_by_defining_pack :=
          [("packs/bar",
            [("::Bar", { violation_types := ["privacy"] })])] } }

/-- Sample pack set. -/
def samplePackSet : PackSet :=
  { packs := [samplePackFoo, samplePackBar, samplePackBaz]
    all_violations := [] }

/-- Sample configuration. -/
def sampleConfig : Configuration :=
  { pack_set := samplePackSet
    absolute_root := ["root"]
    ignore_recorded_violations := false }

/-- Sample cross-pack reference to a non-public file of `packs/bar`. -/
def sampleRef : Reference :=
  { constant_name := "::Bar"
    defining_pack_name := some "packs/bar"
    referencing_pack_name := "packs/foo"
    relative_referencing_file := "packs/foo/app/services/foo.rb"
    relative_defining_file := some "packs/bar/app/services/bar.rb"
    source_location := { line := 3, column := 1 } }

/-- Sample cross-pack reference to a public-folder file of `packs/bar`. -/
def sampleRefPublic : Reference :=
  { sampleRef with
    relative_defining_file := some "packs/bar/app/public/bar.rb" }

/-- Sample cross-pack reference to the ignored constant of `packs/baz`. -/
def sampleRefBaz : Reference :=
  { constant_name := "::Baz"
    defining_pack_name := some "packs/baz"
    referencing_pack_name := "packs/foo"
    relative_referencing_file := "packs/foo/app/services/foo.rb"
    relative_defining_file := some "packs/baz/app/services/baz.rb"
    source_location := { line := 3, column := 1 } }

/-- Sample baseline identifier with violation type `toy`. -/
def sampleIdentifier : ViolationIdentifier :=
  { violation_type := "toy"
    file := "packs/foo/app/services/foo.rb"
    constant_name := "::Bar"
    referencing_pack_name := "packs/foo"
    defining_pack_name := "packs/bar" }

/-- A trivial checker used to exercise the generic engine. -/
def toyChecker : CheckerInterface :=
  { check := fun _ _ => Except.ok none
    is_strict_mode_violation := fun _ _ => Except.ok true
    violation_type := "toy" }

/-- A trivial checker that flags every reference with a fixed violation. -/
def toyFlagChecker : CheckerInterface :=
  { check := fun _ _ =>
      Except.ok (some { message := "toy flag", identifier := sampleIdentifier })
    is_strict_mode_violation := fun _ _ => Except.ok false
    violation_type := "toyflag" }

/-- Number of groups in a baseline entry's group list that hold violation
type `t` (specification-side count). -/
def groupTypeCount (t : String) (gs : List (String × ViolationGroup)) : Nat :=
  (gs.map (fun cg => if t ∈ cg.2.violation_types then 1 else 0)).sum

/-- Specification-side contribution of one pack to the violation-dependents
count for `(p, t)`. -/
def packContribution (target p t : String) (cp : Pack) : Nat :=
  if cp.name ≠ target ∧ cp.name = p then
    ((cp.package_todo.violations_by_defining_pack.filter (fun kv =>
      decide (kv.1 = target))).map (fun kv => groupTypeCount t kv.2)).sum
  else 0

/-- Specification-side violation-dependents count: over all packs other than
the target, each baseline group keyed by the target contributes one count per
violation type it holds. -/
def specViolationCount (packs : List Pack) (target p t : String) : Nat :=
  (packs.map (packContribution target p t)).sum

/-- Occurrence-count variant of `groupTypeCount`, the exact quantity the
nested increment loops accumulate. -/
def groupTypeCountAux (t : String)
    (gs : List (String × ViolationGroup)) : Nat :=
  (gs.map (fun cg => List.count t cg.2.violation_types)).sum

/-- Occurrence-count variant of `packContribution`. -/
def packContributionAux (target p t : String) (cp : Pack) : Nat :=
  if cp.name ≠ target ∧ cp.name = p then
    ((cp.package_todo.violations_by_defining_pack.filter (fun kv =>
      decide (kv.1 = target))).map (fun kv => groupTypeCountAux t kv.2)).sum
  else 0

theorem stripComponents_eq_some {root p r : List String} :
    stripComponents root p = some r ↔ p = root ++ r := by
  induction root generalizing p with
  | nil => simp [stripComponents]
  | cons a as ih =>
    cases p with
    | nil => simp [stripComponents]
    | cons b bs =>
      by_cases hab : a = b
      · subst hab
        simp [stripComponents, ih]
      · rw [show stripComponents (a :: as) (b :: bs)
            = if a = b then stripComponents as bs else none from rfl,
          if_neg hab]
        constructor
        · intro h
          cases h
        · intro h
          injection h with h1 _
          exact absurd h1.symm hab

theorem stripComponents_isSome {root p : List String} :
    (∃ r, stripComponents root p = some r) ↔ root <+: p := by
  constructor
  · rintro ⟨r, hr⟩
    exact ⟨r, (stripComponents_eq_some.mp hr).symm⟩
  · rintro ⟨r, hr⟩
    exact ⟨r, stripComponents_eq_some.mpr hr.symm⟩

theorem stripAllComponents_eq_none {root : List String}
    {ps : List (List String)} :
    stripAllComponents root ps = none ↔
      ∃ p ∈ ps, stripComponents root p = none := by
  induction ps with
  | nil => simp [stripAllComponents]
  | cons p ps ih =>
    simp only [stripAllComponents, Option.bind_eq_bind]
    cases hp : stripComponents root p with
    | none => simp [hp]
    | some r =>
      cases h2 : stripAllComponents root ps with
      | none =>
        simp only [Option.some_bind, Option.none_bind]
        constructor
        · intro _
          rcases ih.mp h2 with ⟨q, hq, hqn⟩
          exact ⟨q, List.mem_cons_of_mem p hq, hqn⟩
        · intro _
          trivial
      | some rs =>
        simp only [Option.some_bind, Option.pure_def]
        constructor
        · intro hcontra
          cases hcontra
        · rintro ⟨q, hq, hqn⟩
          rcases List.mem_cons.mp hq with hq | hq
          · subst hq
            rw [hp] at hqn
            cases hqn
          · have hx := ih.mpr ⟨q, hq, hqn⟩
            rw [h2] at hx
            cases hx

theorem stripAllComponents_mem {root : List String}
    {ps : List (List String)} {rels : List String}
    (h : stripAllComponents root ps = some rels) (s : String) :
    s ∈ rels ↔
      ∃ p ∈ ps, ∃ r, stripComponents root p = some r ∧ pathToStr r = s := by
  induction ps generalizing rels with
  | nil =>
    simp only [stripAllComponents, Option.some.injEq] at h
    subst h
    simp
  | cons p ps ih =>
    cases hp : stripComponents root p with
    | none => simp [stripAllComponents, hp] at h
    | some r =>
      cases h2 : stripAllComponents root ps with
      | none => simp [stripAllComponents, hp, h2] at h
      | some rs =>
        simp only [stripAllComponents, hp, h2, Option.bind_eq_bind,
          Option.some_bind, Option.pure_def, Option.some.injEq] at h
        subst h
        simp only [List.mem_cons, ih h2]
        constructor
        · rintro (hs | ⟨q, hq, r2, hr2, hs⟩)
          · exact ⟨p, Or.inl rfl, r, hp, hs.symm⟩
          · exact ⟨q, Or.inr hq, r2, hr2, hs⟩
        · rintro ⟨q, hq | hq, r2, hr2, hs⟩
          · subst hq
            rw [hp] at hr2
            cases hr2
            exact Or.inl hs.symm
          · exact Or.inr ⟨q, hq, r2, hr2, hs⟩

theorem stripAllComponents_isSome {root : List String}
    {ps : List (List String)} (h : ∀ p ∈ ps, root <+: p) :
    ∃ rels, stripAllComponents root ps = some rels := by
  cases h2 : stripAllComponents root ps with
  | none =>
    rcases stripAllComponents_eq_none.mp h2 with ⟨p, hp, hnone⟩
    rcases stripComponents_isSome.mpr (h p hp) with ⟨r, hr⟩
    rw [hr] at hnone
    cases hnone
  | some rels => exact ⟨rels, rfl⟩

/-- C1: when `ignore_recorded_violations` is false the reportable bucket is
exactly the freshly found violations whose identifier is outside the
baseline; when it is true the bucket is the whole found set, with no
filtering. -/
theorem C1_reportable_characterization (ps : PackSet) (root : List String)
    (found : Finset Violation) (recorded : List ViolationIdentifier) :
    build_reportable_violations ⟨ps, root, true⟩ found recorded = found
    ∧ ∀ v, v ∈ build_reportable_violations ⟨ps, root, false⟩ found recorded
        ↔ v ∈ found ∧ v.identifier ∉ recorded := by
  constructor
  · simp [build_reportable_violations]
  · intro v
    simp [build_reportable_violations]

/-- C2: under the totality precondition of the path normalization, a
baseline entry is stale exactly when its file equals the root-relative
rendering of some working-set path and its identifier is not among the found
violations' identifiers; an entry whose file is outside the working set is
never stale. -/
theorem C2_stale_characterization (configuration : Configuration)
    (paths : List (List String)) (found : Finset Violation)
    (recorded : List ViolationIdentifier)
    (h : ∀ p ∈ paths, configuration.absolute_root <+: p) :
    ∃ stale,
      build_stale_violations configuration paths found recorded = some stale
      ∧ ∀ v, v ∈ stale ↔ v ∈ recorded
          ∧ (∃ p ∈ paths, ∃ r,
              stripComponents configuration.absolute_root p = some r
              ∧ pathToStr r = v.file)
          ∧ ¬ ∃ w ∈ found, w.identifier = v := by
  rcases stripAllComponents_isSome h with ⟨rels, hrels⟩
  refine ⟨recorded.filter (fun v =>
      decide (v.file ∈ rels ∧ v ∉ found.image Violation.identifier)),
    by simp [build_stale_violations, hrels], ?_⟩
  intro v
  simp only [List.mem_filter, decide_eq_true_eq, Finset.mem_image,
    stripAllComponents_mem hrels]

/-- C2 witness: a concrete baseline entry for a re-checked file with no
matching fresh violation is stale. -/
theorem C2_stale_witness :
    ∃ stale,
      build_stale_violations sampleConfig
        [["root", "packs/foo/app/services/foo.rb"]] ∅ [sampleIdentifier]
        = some stale
      ∧ ∀ v, v ∈ stale ↔ v ∈ [sampleIdentifier]
          ∧ (∃ p ∈ [["root", "packs/foo/app/services/foo.rb"]], ∃ r,
              stripComponents sampleConfig.absolute_root p = some r
              ∧ pathToStr r = v.file)
          ∧ ¬ ∃ w ∈ (∅ : Finset Violation), w.identifier = v :=
  C2_stale_characterization sampleConfig
    [["root", "packs/foo/app/services/foo.rb"]] ∅ [sampleIdentifier]
    (by
      intro p hp
      simp only [List.mem_singleton] at hp
      subst hp
      exact ⟨["packs/foo/app/services/foo.rb"], rfl⟩)

/-- C10: the stale-violation computation (and hence the builder) is total
precisely when every working-set path lies under the absolute root; a path
outside the root reaches the `unwrap` panic, which no error value reports. -/
theorem C10_stale_totality (configuration : Configuration)
    (checkers : List CheckerInterface) (paths : List (List String))
    (violations : Finset Violation) :
    ((∀ p ∈ paths, configuration.absolute_root <+: p) →
      (checkAllBuild configuration checkers paths violations).isSome)
    ∧ ((∃ p ∈ paths, ¬ configuration.absolute_root <+: p) →
      checkAllBuild configuration checkers paths violations = none) := by
  constructor
  · intro h
    rcases stripAllComponents_isSome h with ⟨rels, hrels⟩
    simp only [checkAllBuild, build_stale_violations, hrels]
    cases build_strict_mode_violations checkers configuration
        configuration.pack_set.all_violations with
    | error e => simp
    | ok strict => simp
  · rintro ⟨p, hp, hnp⟩
    have hnone : stripComponents configuration.absolute_root p = none := by
      cases hsc : stripComponents configuration.absolute_root p with
      | none => rfl
      | some r => exact absurd (stripComponents_isSome.mp ⟨r, hsc⟩) hnp
    have : stripAllComponents configuration.absolute_root paths = none :=
      stripAllComponents_eq_none.mpr ⟨p, hp, hnone⟩
    simp [checkAllBuild, build_stale_violations, this]

/-- C10 witness: the builder succeeds on a working set under the root and
panics on a working set outside it. -/
theorem C10_stale_totality_witness :
    (checkAllBuild sampleConfig [] [["root", "a.rb"]] ∅).isSome
    ∧ checkAllBuild sampleConfig [] [["elsewhere", "a.rb"]] ∅ = none := by
  constructor
  · exact (C10_stale_totality sampleConfig [] [["root", "a.rb"]] ∅).1
      (by
        intro p hp
        simp only [List.mem_singleton] at hp
        subst hp
        exact ⟨["a.rb"], rfl⟩)
  · exact (C10_stale_totality sampleConfig [] [["elsewhere", "a.rb"]] ∅).2
      ⟨["elsewhere", "a.rb"], by simp, by
        rintro ⟨t, ht⟩
        simp only [sampleConfig, List.cons_append, List.nil_append] at ht
        injection ht with h1 _
        exact absurd h1 (by decide)⟩

theorem indexedChecker_eq_none {checkers : List CheckerInterface}
    {t : String} :
    indexedChecker checkers t = none ↔
      ∀ c ∈ checkers, c.violation_type ≠ t := by
  simp only [indexedChecker, List.getLast?_eq_none_iff, List.filter_eq_nil_iff,
    beq_iff_eq]

theorem buildStrictGo_ok {checkers : List CheckerInterface}
    {configuration : Configuration} {vs l : List ViolationIdentifier}
    (h : buildStrictGo checkers configuration vs = Except.ok l) :
    (∀ v ∈ vs, ∃ c, indexedChecker checkers v.violation_type = some c
      ∧ ∃ b, c.is_strict_mode_violation v configuration = Except.ok b)
    ∧ ∀ v, v ∈ l ↔ v ∈ vs
        ∧ ∃ c, indexedChecker checkers v.violation_type = some c
          ∧ c.is_strict_mode_violation v configuration = Except.ok true := by
  induction vs generalizing l with
  | nil =>
    simp only [buildStrictGo, Except.ok.injEq] at h
    subst h
    simp
  | cons v vs ih =>
    cases hidx : indexedChecker checkers v.violation_type with
    | none => simp [buildStrictGo, hidx] at h
    | some c =>
      cases hb : c.is_strict_mode_violation v configuration with
      | error e => simp [buildStrictGo, hidx, hb, bind, Bind.bind, Except.bind, Functor.map, Except.map] at h
      | ok b =>
        cases hrest : buildStrictGo checkers configuration vs with
        | error e =>
          simp [buildStrictGo, hidx, hb, hrest, bind, Bind.bind, Except.bind, Functor.map, Except.map, pure, Except.pure] at h
        | ok rest =>
          simp only [buildStrictGo, hidx, hb, hrest, bind, Bind.bind,
            Except.bind, Functor.map, Except.map, pure, Except.pure,
            Except.ok.injEq] at h
          subst h
          rcases ih hrest with ⟨hall, hmem⟩
          constructor
          · intro w hw
            rcases List.mem_cons.mp hw with hw | hw
            · subst hw
              exact ⟨c, hidx, b, hb⟩
            · exact hall w hw
          · intro w
            constructor
            · intro hw
              by_cases hbv : b = true
              · subst hbv
                rcases List.mem_cons.mp hw with hw | hw
                · subst hw
                  exact ⟨List.mem_cons_self _ _, c, hidx, hb⟩
                · rcases (hmem w).mp hw with ⟨hw1, hw2⟩
                  exact ⟨List.mem_cons_of_mem _ hw1, hw2⟩
              · simp only [hbv, if_neg, Bool.false_eq_true, if_false] at hw
                rcases (hmem w).mp hw with ⟨hw1, hw2⟩
                exact ⟨List.mem_cons_of_mem _ hw1, hw2⟩
            · rintro ⟨hw1, c2, hc2, hc2t⟩
              rcases List.mem_cons.mp hw1 with hw1 | hw1
              · subst hw1
                rw [hidx] at hc2
                cases hc2
                rw [hb] at hc2t
                cases hc2t
                simp
              · have hwrest : w ∈ rest := (hmem w).mpr ⟨hw1, c2, hc2, hc2t⟩
                cases b <;> simp [hwrest]

theorem buildStrictGo_ok_exists {checkers : List CheckerInterface}
    {configuration : Configuration} {vs : List ViolationIdentifier}
    (h : ∀ v ∈ vs, ∃ c, indexedChecker checkers v.violation_type = some c
      ∧ ∃ b, c.is_strict_mode_violation v configuration = Except.ok b) :
    ∃ l, buildStrictGo checkers configuration vs = Except.ok l := by
  induction vs with
  | nil => exact ⟨[], rfl⟩
  | cons v vs ih =>
    rcases h v (List.mem_cons_self _ _) with ⟨c, hidx, b, hb⟩
    rcases ih (fun w hw => h w (List.mem_cons_of_mem _ hw)) with ⟨rest, hrest⟩
    refine ⟨if b then v :: rest else rest, ?_⟩
    simp [buildStrictGo, hidx, hb, hrest, bind, Bind.bind, Except.bind, Functor.map, Except.map, pure, Except.pure]

/-- C3: a baseline entry whose violation type matches no registered checker
makes the whole strict-mode computation fail, as does any error from
`is_strict_mode_violation`; when every entry is routable and every routed
call succeeds, the bucket holds exactly the entries whose checker reports
them as strict-mode violations. -/
theorem C3_strict_mode_routing (checkers : List CheckerInterface)
    (configuration : Configuration) (recorded : List ViolationIdentifier) :
    ((∃ v ∈ recorded, ∀ c ∈ checkers, c.violation_type ≠ v.violation_type) →
      ∀ l, build_strict_mode_violations checkers configuration recorded
        ≠ Except.ok l)
    ∧ ((∃ v ∈ recorded, ∃ c,
        indexedChecker checkers v.violation_type = some c
        ∧ ∃ e, c.is_strict_mode_violation v configuration = Except.error e) →
      ∀ l, build_strict_mode_violations checkers configuration recorded
        ≠ Except.ok l)
    ∧ ((∀ v ∈ recorded, ∃ c,
        indexedChecker checkers v.violation_type = some c
        ∧ ∃ b, c.is_strict_mode_violation v configuration = Except.ok b) →
      ∃ l, build_strict_mode_violations checkers configuration recorded
          = Except.ok l
        ∧ ∀ v, v ∈ l ↔ v ∈ recorded
            ∧ ∃ c, indexedChecker checkers v.violation_type = some c
              ∧ c.is_strict_mode_violation v configuration
                = Except.ok true) := by
  refine ⟨?_, ?_, ?_⟩
  · rintro ⟨v, hv, hunroutable⟩ l hok
    rcases (buildStrictGo_ok hok).1 v hv with ⟨c, hc, _⟩
    rw [indexedChecker_eq_none.mpr hunroutable] at hc
    cases hc
  · rintro ⟨v, hv, c, hc, e, he⟩ l hok
    rcases (buildStrictGo_ok hok).1 v hv with ⟨c2, hc2, b, hb⟩
    rw [hc] at hc2
    cases hc2
    rw [he] at hb
    cases hb
  · intro h
    rcases buildStrictGo_ok_exists h with ⟨l, hl⟩
    exact ⟨l, hl, (buildStrictGo_ok hl).2⟩

/-- C3 witness: with the toy checker registered, a baseline entry of type
`toy` is routed and reported as a strict-mode violation. -/
theorem C3_strict_mode_routing_witness :
    ∃ l, build_strict_mode_violations [toyChecker] sampleConfig
        [sampleIdentifier] = Except.ok l
      ∧ ∀ v, v ∈ l ↔ v ∈ [sampleIdentifier]
          ∧ ∃ c, indexedChecker [toyChecker] v.violation_type = some c
            ∧ c.is_strict_mode_violation v sampleConfig = Except.ok true :=
  (C3_strict_mode_routing [toyChecker] sampleConfig [sampleIdentifier]).2.2
    (by
      intro v hv
      simp only [List.mem_singleton] at hv
      subst hv
      exact ⟨toyChecker, rfl, true, rfl⟩)

theorem mem_allPairs {checkers : List CheckerInterface}
    {references : List Reference} (p : CheckerInterface × Reference) :
    p ∈ allPairs checkers references ↔
      p.1 ∈ checkers ∧ p.2 ∈ references := by
  rcases p with ⟨c, r⟩
  simp only [allPairs, List.mem_flatten, List.mem_map]
  constructor
  · rintro ⟨l, ⟨c2, hc2, rfl⟩, hm⟩
    rcases List.mem_map.mp hm with ⟨r2, hr2, he⟩
    cases he
    exact ⟨hc2, hr2⟩
  · rintro ⟨hc, hr⟩
    exact ⟨references.map (fun r => (c, r)), ⟨c, hc, rfl⟩,
      List.mem_map.mpr ⟨r, hr, rfl⟩⟩

theorem pairsFold_ok {configuration : Configuration}
    {pairs : List (CheckerInterface × Reference)} (acc : Finset Violation)
    (h : ∀ p ∈ pairs, ∃ o, p.1.check p.2 configuration = Except.ok o) :
    ∃ s, pairsFold configuration acc pairs = Except.ok s
      ∧ ∀ v, v ∈ s ↔ v ∈ acc
          ∨ ∃ p ∈ pairs, p.1.check p.2 configuration
              = Except.ok (some v) := by
  induction pairs generalizing acc with
  | nil =>
    refine ⟨acc, rfl, ?_⟩
    simp
  | cons p ps ih =>
    rcases h p (List.mem_cons_self _ _) with ⟨o, ho⟩
    have hrest := fun q hq => h q (List.mem_cons_of_mem _ hq)
    cases o with
    | none =>
      rcases ih acc hrest with ⟨s, hs, hmem⟩
      refine ⟨s, by simp [pairsFold, ho, hs], ?_⟩
      intro v
      rw [hmem v]
      constructor
      · rintro (hv | ⟨q, hq, hqv⟩)
        · exact Or.inl hv
        · exact Or.inr ⟨q, List.mem_cons_of_mem _ hq, hqv⟩
      · rintro (hv | ⟨q, hq, hqv⟩)
        · exact Or.inl hv
        · rcases List.mem_cons.mp hq with hq | hq
          · subst hq
            rw [ho] at hqv
            cases hqv
          · exact Or.inr ⟨q, hq, hqv⟩
    | some w =>
      rcases ih (insert w acc) hrest with ⟨s, hs, hmem⟩
      refine ⟨s, by simp [pairsFold, ho, hs], ?_⟩
      intro v
      rw [hmem v]
      simp only [Finset.mem_insert]
      constructor
      · rintro ((hv | hv) | ⟨q, hq, hqv⟩)
        · subst hv
          exact Or.inr ⟨p, List.mem_cons_self _ _, ho⟩
        · exact Or.inl hv
        · exact Or.inr ⟨q, List.mem_cons_of_mem _ hq, hqv⟩
      · rintro (hv | ⟨q, hq, hqv⟩)
        · exact Or.inl (Or.inr hv)
        · rcases List.mem_cons.mp hq with hq | hq
          · subst hq
            rw [ho] at hqv
            cases hqv
            exact Or.inl (Or.inl rfl)
          · exact Or.inr ⟨q, hq, hqv⟩

theorem checkRefsFold_eq_pairsFold (c : CheckerInterface)
    (configuration : Configuration) (acc : Finset Violation)
    (references : List Reference) :
    checkRefsFold c configuration acc references
      = pairsFold configuration acc (references.map (fun r => (c, r))) := by
  induction references generalizing acc with
  | nil => rfl
  | cons r rs ih =>
    simp only [checkRefsFold, List.map_cons, pairsFold]
    cases c.check r configuration with
    | error e => rfl
    | ok o =>
      cases o with
      | none => exact ih acc
      | some v => exact ih (insert v acc)

theorem get_all_violations_ok {checkers : List CheckerInterface}
    {references : List Reference} {configuration : Configuration}
    (h : ∀ c ∈ checkers, ∀ r ∈ references,
      ∃ o, c.check r configuration = Except.ok o) :
    ∃ s, get_all_violations checkers references configuration = Except.ok s
      ∧ ∀ v, v ∈ s ↔ ∃ c ∈ checkers, ∃ r ∈ references,
          c.check r configuration = Except.ok (some v) := by
  induction checkers with
  | nil =>
    refine ⟨∅, rfl, ?_⟩
    simp
  | cons c cs ih =>
    have hc : ∀ p ∈ references.map (fun r => (c, r)),
        ∃ o, p.1.check p.2 configuration = Except.ok o := by
      rintro p hp
      rcases List.mem_map.mp hp with ⟨r, hr, rfl⟩
      exact h c (List.mem_cons_self _ _) r hr
    rcases pairsFold_ok ∅ hc with ⟨s1, hs1, hmem1⟩
    rcases ih (fun c2 hc2 => h c2 (List.mem_cons_of_mem _ hc2)) with
      ⟨s2, hs2, hmem2⟩
    refine ⟨s1 ∪ s2, ?_, ?_⟩
    · simp [get_all_violations, checkRefsFold_eq_pairsFold, hs1, hs2, bind,
        Bind.bind, Except.bind, Functor.map, Except.map, pure, Except.pure]
    · intro v
      simp only [Finset.mem_union, hmem1 v, hmem2 v, Finset.not_mem_empty,
        false_or]
      constructor
      · rintro (⟨q, hq, hqv⟩ | ⟨c2, hc2, r2, hr2, hv⟩)
        · rcases List.mem_map.mp hq with ⟨r, hr, rfl⟩
          exact ⟨c, List.mem_cons_self _ _, r, hr, hqv⟩
        · exact ⟨c2, List.mem_cons_of_mem _ hc2, r2, hr2, hv⟩
      · rintro ⟨c2, hc2, r2, hr2, hv⟩
        rcases List.mem_cons.mp hc2 with hc2 | hc2
        · subst hc2
          exact Or.inl ⟨(c2, r2), List.mem_map.mpr ⟨r2, hr2, rfl⟩, hv⟩
        · exact Or.inr ⟨c2, hc2, r2, hr2, hv⟩

theorem partitionedRun_ok {configuration : Configuration}
    {parts : List (List (CheckerInterface × Reference))}
    (h : ∀ p ∈ parts.flatten,
      ∃ o, p.1.check p.2 configuration = Except.ok o) :
    ∃ s, partitionedRun configuration parts = Except.ok s
      ∧ ∀ v, v ∈ s ↔ ∃ p ∈ parts.flatten,
          p.1.check p.2 configuration = Except.ok (some v) := by
  induction parts with
  | nil =>
    refine ⟨∅, rfl, ?_⟩
    simp
  | cons part parts ih =>
    have hpart : ∀ p ∈ part,
        ∃ o, p.1.check p.2 configuration = Except.ok o := by
      intro p hp
      exact h p (List.mem_flatten.mpr ⟨part, List.mem_cons_self _ _, hp⟩)
    rcases pairsFold_ok ∅ hpart with ⟨s1, hs1, hmem1⟩
    have hrest : ∀ p ∈ parts.flatten,
        ∃ o, p.1.check p.2 configuration = Except.ok o := by
      intro p hp
      rcases List.mem_flatten.mp hp with ⟨l, hl, hpl⟩
      exact h p (List.mem_flatten.mpr ⟨l, List.mem_cons_of_mem _ hl, hpl⟩)
    rcases ih hrest with ⟨s2, hs2, hmem2⟩
    refine ⟨s1 ∪ s2, ?_, ?_⟩
    · simp [partitionedRun, hs1, hs2, bind, Bind.bind, Except.bind,
        Functor.map, Except.map, pure, Except.pure]
    · intro v
      simp only [Finset.mem_union, hmem1 v, hmem2 v, Finset.not_mem_empty,
        false_or, List.flatten_cons, List.mem_append, List.mem_flatten]
      constructor
      · rintro (⟨q, hq, hqv⟩ | ⟨q, ⟨l, hl, hql⟩, hqv⟩)
        · exact ⟨q, Or.inl hq, hqv⟩
        · exact ⟨q, Or.inr ⟨l, hl, hql⟩, hqv⟩
      · rintro ⟨q, hq | ⟨l, hl, hql⟩, hqv⟩
        · exact Or.inl ⟨q, hq, hqv⟩
        · exact Or.inr ⟨q, ⟨l, hl, hql⟩, hqv⟩

/-- C4: when no individual check errors, the violation set of the parallel
phase equals, for every partitioning of the checker-by-reference work, the
union of the `Some` results of `check` over all checker-reference pairs: the
fold is associative, commutative and order-independent. -/
theorem C4_parallel_order_independence (checkers : List CheckerInterface)
    (references : List Reference) (configuration : Configuration)
    (parts : List (List (CheckerInterface × Reference)))
    (hok : ∀ c ∈ checkers, ∀ r ∈ references,
      ∃ o, c.check r configuration = Except.ok o)
    (hperm : parts.flatten.Perm (allPairs checkers references)) :
    ∃ S, get_all_violations checkers references configuration = Except.ok S
      ∧ partitionedRun configuration parts = Except.ok S
      ∧ ∀ v, v ∈ S ↔ ∃ c ∈ checkers, ∃ r ∈ references,
          c.check r configuration = Except.ok (some v) := by
  rcases get_all_violations_ok hok with ⟨S, hS, hmemS⟩
  have hflat : ∀ p ∈ parts.flatten,
      ∃ o, p.1.check p.2 configuration = Except.ok o := by
    intro p hp
    have hp2 := (mem_allPairs p).mp (hperm.mem_iff.mp hp)
    exact hok p.1 hp2.1 p.2 hp2.2
  rcases partitionedRun_ok hflat with ⟨S2, hS2, hmemS2⟩
  have hSeq : S2 = S := by
    apply Finset.ext
    intro v
    rw [hmemS v, hmemS2 v]
    constructor
    · rintro ⟨p, hp, hpv⟩
      have hp2 := (mem_allPairs p).mp (hperm.mem_iff.mp hp)
      exact ⟨p.1, hp2.1, p.2, hp2.2, hpv⟩
    · rintro ⟨c, hc, r, hr, hv⟩
      exact ⟨(c, r), hperm.mem_iff.mpr ((mem_allPairs (c, r)).mpr ⟨hc, hr⟩),
        hv⟩
  rw [hSeq] at hS2
  exact ⟨S, hS, hS2, hmemS⟩

/-- C4 witness: one flagging checker and one reference, with the whole work
list as a single partition. -/
theorem C4_parallel_order_independence_witness :
    ∃ S, get_all_violations [toyFlagChecker] [sampleRef] sampleConfig
        = Except.ok S
      ∧ partitionedRun sampleConfig [allPairs [toyFlagChecker] [sampleRef]]
          = Except.ok S
      ∧ ∀ v, v ∈ S ↔ ∃ c ∈ [toyFlagChecker], ∃ r ∈ [sampleRef],
          c.check r sampleConfig = Except.ok (some v) :=
  C4_parallel_order_independence [toyFlagChecker] [sampleRef] sampleConfig
    [allPairs [toyFlagChecker] [sampleRef]]
    (by
      intro c hc r hr
      simp only [List.mem_singleton] at hc hr
      subst hc
      subst hr
      exact ⟨some { message := "toy flag", identifier := sampleIdentifier },
        rfl⟩)
    (by simp)

/-- C5: a defining file under the pack's public folder (component-wise: the
folder itself or the folder followed by a separator and a remainder) makes
the reference public by location, so no privacy violation is raised,
whatever `private_constants` holds. -/
theorem C5_public_folder_wins (reference : Reference)
    (configuration : Configuration) (rp dp : Pack) (f : String)
    (hrp : reference.referencingPack configuration.pack_set = Except.ok rp)
    (hdp : reference.definingPack configuration.pack_set
      = Except.ok (some dp))
    (henf : dp.enforcePrivacy ≠ CheckerSetting.off)
    (hfile : reference.relative_defining_file = some f)
    (hpub : f = dp.publicFolder
      ∨ ∃ rest, f = dp.publicFolder ++ "/" ++ rest) :
    privacy_check reference configuration = Except.ok none := by
  have hsw : startsWithStr f dp.publicFolder = true := by
    rcases hpub with hpub | ⟨rest, hpub⟩
    · subst hpub
      exact List.isPrefixOf_iff_prefix.mpr (List.prefix_refl _)
    · subst hpub
      refine List.isPrefixOf_iff_prefix.mpr ?_
      rw [String.data_append, String.data_append, List.append_assoc]
      exact List.prefix_append _ _
  simp only [privacy_check, hrp, hdp, hfile, bind, Bind.bind, Except.bind]
  split_ifs with h1 h2 h3 <;> rfl

/-- C5 witness: the public-folder reference to `packs/bar` yields no
violation. -/
theorem C5_public_folder_wins_witness :
    privacy_check sampleRefPublic sampleConfig = Except.ok none :=
  C5_public_folder_wins sampleRefPublic sampleConfig samplePackFoo
    samplePackBar "packs/bar/app/public/bar.rb" rfl rfl (by decide) rfl
    (Or.inr ⟨"bar.rb", by decide⟩)

/-- C6: a referenced constant in the defining pack's
`ignored_private_constants` yields no violation, whatever
`private_constants` holds. -/
theorem C6_ignore_list_wins (reference : Reference)
    (configuration : Configuration) (rp dp : Pack)
    (hrp : reference.referencingPack configuration.pack_set = Except.ok rp)
    (hdp : reference.definingPack configuration.pack_set
      = Except.ok (some dp))
    (hign : reference.constant_name ∈ dp.ignored_private_constants) :
    privacy_check reference configuration = Except.ok none := by
  simp only [privacy_check, hrp, hdp, hign, bind, Bind.bind, Except.bind,
    if_true]
  split_ifs <;> rfl

/-- C6 witness: `::Baz` is both ignored and declared private in
`packs/baz`; the reference yields no violation. -/
theorem C6_ignore_list_wins_witness :
    privacy_check sampleRefBaz sampleConfig = Except.ok none :=
  C6_ignore_list_wins sampleRefBaz sampleConfig samplePackFoo samplePackBaz
    rfl rfl (by decide)

/-- C7: for a cross-pack reference to a non-public, non-ignored file with
enforcement on or strict: an empty `private_constants` always raises a
violation; a non-empty one raises a violation exactly for an exact entry
match or an entry-rooted namespace match, and otherwise yields none. -/
theorem C7_private_constants_matching (reference : Reference)
    (configuration : Configuration) (rp dp : Pack) (f : String)
    (hrp : reference.referencingPack configuration.pack_set = Except.ok rp)
    (hdp : reference.definingPack configuration.pack_set
      = Except.ok (some dp))
    (hneq : rp.name ≠ dp.name)
    (hfile : reference.relative_defining_file = some f)
    (hnotpub : startsWithStr f dp.publicFolder = false)
    (hnotign : reference.constant_name ∉ dp.ignored_private_constants)
    (henf : dp.enforcePrivacy = CheckerSetting.on
      ∨ dp.enforcePrivacy = CheckerSetting.strict) :
    (dp.private_constants = [] →
      privacy_check reference configuration
        = Except.ok (some (privacyViolationFor reference rp dp)))
    ∧ (dp.private_constants ≠ [] →
        ((reference.constant_name ∈ dp.private_constants
          ∨ ∃ e ∈ dp.private_constants,
              startsWithStr reference.constant_name (e ++ "::") = true) →
          privacy_check reference configuration
            = Except.ok (some (privacyViolationFor reference rp dp)))
        ∧ ((reference.constant_name ∉ dp.private_constants
          ∧ ∀ e ∈ dp.private_constants,
              startsWithStr reference.constant_name (e ++ "::") = false) →
          privacy_check reference configuration = Except.ok none)) := by
  have hf : dp.enforcePrivacy.is_false = false := by
    rcases henf with h | h <;> simp [h, CheckerSetting.is_false]
  simp only [privacy_check, hrp, hdp, hfile, bind, Bind.bind, Except.bind,
    hf, Bool.false_eq_true, if_false, if_neg hnotign, if_neg hneq, hnotpub]
  constructor
  · intro hempty
    simp [hempty, pure, Except.pure]
  · intro hnonempty
    have hne : dp.private_constants.isEmpty = false := by
      cases hpc : dp.private_constants with
      | nil => exact absurd hpc hnonempty
      | cons a l => rfl
    simp only [hne, Bool.false_eq_true, if_false]
    constructor
    · intro hmatch
      split_ifs with hcond
      · rfl
      · refine absurd ?_ hcond
        rcases hmatch with hm | ⟨e, he, hsw⟩
        · exact Or.inl hm
        · exact Or.inr (List.any_eq_true.mpr ⟨e, he, hsw⟩)
    · rintro ⟨hm, hns⟩
      split_ifs with hcond
      · rcases hcond with hc | hc
        · exact absurd hc hm
        · rcases List.any_eq_true.mp hc with ⟨e, he, hsw⟩
          rw [hns e he] at hsw
          cases hsw
      · rfl

/-- C7 witness: `packs/bar` has an empty private-constant list, so the
cross-pack reference to its non-public file raises the privacy violation;
the non-empty conjunct holds vacuously. -/
theorem C7_private_constants_matching_witness :
    (samplePackBar.private_constants = [] →
      privacy_check sampleRef sampleConfig
        = Except.ok (some
          (privacyViolationFor sampleRef samplePackFoo samplePackBar)))
    ∧ (samplePackBar.private_constants ≠ [] →
        ((sampleRef.constant_name ∈ samplePackBar.private_constants
          ∨ ∃ e ∈ samplePackBar.private_constants,
              startsWithStr sampleRef.constant_name (e ++ "::") = true) →
          privacy_check sampleRef sampleConfig
            = Except.ok (some
              (privacyViolationFor sampleRef samplePackFoo samplePackBar)))
        ∧ ((sampleRef.constant_name ∉ samplePackBar.private_constants
          ∧ ∀ e ∈ samplePackBar.private_constants,
              startsWithStr sampleRef.constant_name (e ++ "::") = false) →
          privacy_check sampleRef sampleConfig = Except.ok none)) :=
  C7_private_constants_matching sampleRef sampleConfig samplePackFoo
    samplePackBar "packs/bar/app/services/bar.rb" rfl rfl (by decide) rfl
    (by decide) (by decide) (Or.inl (by decide))

theorem edge_counts_foldl_apply (references : List Reference)
    (m : String × String → Nat) (e : String × String) :
    (references.foldl
      (fun m r =>
        match r.defining_pack_name with
        | none => m
        | some d =>
          fun e2 =>
            if e2 = (r.referencing_pack_name, d) then m e2 + 1 else m e2)
      m) e = m e + refCount references e := by
  induction references generalizing m with
  | nil => simp [refCount]
  | cons r rs ih =>
    simp only [List.foldl_cons, ih]
    cases hd : r.defining_pack_name with
    | none =>
      simp [refCount, List.filter_cons, hd]
    | some d =>
      by_cases he : e = (r.referencing_pack_name, d)
      · subst he
        simp [refCount, List.filter_cons, hd]
        omega
      · have hne : ¬ (r.referencing_pack_name = e.1
            ∧ r.defining_pack_name = some e.2) := by
          rintro ⟨h1, h2⟩
          rw [hd, Option.some.injEq] at h2
          exact he (Prod.ext h1.symm h2.symm)
        simp [refCount, List.filter_cons, he, hne]

theorem edge_counts_apply (references : List Reference) (e : String × String) :
    edge_counts references e = refCount references e := by
  simpa using edge_counts_foldl_apply references (fun _ => 0) e

theorem refCount_perm {references references2 : List Reference}
    (h : references.Perm references2) (e : String × String) :
    refCount references e = refCount references2 e := by
  simp only [refCount, ← List.countP_eq_length_filter]
  exact h.countP_eq _

theorem lookupEntry_pushEntry_self (acc : List (Pack × List String))
    (p : Pack) (d : String) :
    lookupEntry (pushEntry acc p d) p
      = some ((lookupEntry acc p).getD [] ++ [d]) := by
  induction acc with
  | nil => simp [pushEntry, lookupEntry]
  | cons ql rest ih =>
    rcases ql with ⟨q, l⟩
    by_cases hq : q = p
    · subst hq
      simp [pushEntry, lookupEntry]
    · simp [pushEntry, lookupEntry, hq, ih]

theorem lookupEntry_pushEntry_ne (acc : List (Pack × List String))
    (p q : Pack) (d : String) (h : q ≠ p) :
    lookupEntry (pushEntry acc p d) q = lookupEntry acc q := by
  induction acc with
  | nil =>
    simp only [pushEntry, lookupEntry]
    rw [if_neg (fun hh => h hh.symm)]
  | cons rl rest ih =>
    rcases rl with ⟨r, l⟩
    by_cases hr : r = p
    · subst hr
      have hrq : ¬ r = q := fun hh => h hh.symm
      simp [pushEntry, lookupEntry, hrq]
    · simp only [pushEntry, if_neg hr, lookupEntry]
      by_cases hrq : r = q
      · simp [hrq]
      · simp [hrq, ih]

theorem inner_fold_lookup_self (ec : String × String → Nat) (p : Pack)
    (deps : List String) :
    ∀ acc, lookupEntry
        (deps.foldl
          (fun acc d => if ec (p.name, d) = 0 then pushEntry acc p d else acc)
          acc) p
      = (if lookupEntry acc p = none
            ∧ deps.filter (fun d => decide (ec (p.name, d) = 0)) = []
         then none
         else some ((lookupEntry acc p).getD []
           ++ deps.filter (fun d => decide (ec (p.name, d) = 0)))) := by
  induction deps with
  | nil =>
    intro acc
    cases hl : lookupEntry acc p with
    | none => simp [hl]
    | some l => simp [hl]
  | cons d ds ih =>
    intro acc
    simp only [List.foldl_cons, List.filter_cons]
    by_cases hc : ec (p.name, d) = 0
    · have hdec : decide (ec (p.name, d) = 0) = true := decide_eq_true hc
      rw [if_pos hc, ih (pushEntry acc p d), lookupEntry_pushEntry_self, hdec]
      cases hl : lookupEntry acc p with
      | none => simp [hl]
      | some l => simp [hl, List.append_assoc]
    · have hdec : decide (ec (p.name, d) = 0) = false :=
        decide_eq_false hc
      rw [if_neg hc, ih acc, hdec]
      simp

theorem inner_fold_lookup_ne (ec : String × String → Nat) (p q : Pack)
    (deps : List String) (h : q ≠ p) :
    ∀ acc, lookupEntry
        (deps.foldl
          (fun acc d => if ec (p.name, d) = 0 then pushEntry acc p d else acc)
          acc) q
      = lookupEntry acc q := by
  induction deps with
  | nil => intro acc; rfl
  | cons d ds ih =>
    intro acc
    simp only [List.foldl_cons]
    by_cases hc : ec (p.name, d) = 0
    · rw [if_pos hc, ih, lookupEntry_pushEntry_ne _ _ _ _ h]
    · rw [if_neg hc, ih]

theorem outer_fold_lookup_ne (ec : String × String → Nat)
    (packs : List Pack) (p : Pack) (h : ∀ q ∈ packs, q ≠ p) :
    ∀ acc, lookupEntry
        (packs.foldl
          (fun acc q =>
            q.dependencies.foldl
              (fun acc d =>
                if ec (q.name, d) = 0 then pushEntry acc q d else acc)
              acc)
          acc) p
      = lookupEntry acc p := by
  induction packs with
  | nil => intro acc; rfl
  | cons q rest ih =>
    intro acc
    simp only [List.foldl_cons]
    rw [ih (fun r hr => h r (List.mem_cons_of_mem _ hr)),
      inner_fold_lookup_ne ec q p q.dependencies
        (fun hpq => h q (List.mem_cons_self _ _) hpq.symm)]

theorem outer_fold_lookup_self (ec : String × String → Nat)
    (packs : List Pack) (p : Pack) (hp : p ∈ packs)
    (hnodup : (packs.map Pack.name).Nodup) :
    ∀ acc, lookupEntry acc p = none →
      lookupEntry
        (packs.foldl
          (fun acc q =>
            q.dependencies.foldl
              (fun acc d =>
                if ec (q.name, d) = 0 then pushEntry acc q d else acc)
              acc)
          acc) p
      = (if p.dependencies.filter (fun d => decide (ec (p.name, d) = 0)) = []
         then none
         else some
           (p.dependencies.filter (fun d => decide (ec (p.name, d) = 0)))) := by
  induction packs with
  | nil => cases hp
  | cons q rest ih =>
    intro acc hacc
    simp only [List.map_cons, List.nodup_cons] at hnodup
    simp only [List.foldl_cons]
    by_cases hq : q = p
    · subst hq
      have hrest : ∀ r ∈ rest, r ≠ q := by
        intro r hr hrq
        exact hnodup.1 (hrq ▸ List.mem_map.mpr ⟨r, hr, rfl⟩)
      rw [outer_fold_lookup_ne ec rest q hrest,
        inner_fold_lookup_self ec q q.dependencies acc, hacc]
      simp
    · have hprest : p ∈ rest := by
        rcases List.mem_cons.mp hp with hp2 | hp2
        · exact absurd hp2.symm hq
        · exact hp2
      have hacc2 : lookupEntry
          (q.dependencies.foldl
            (fun acc d =>
              if ec (q.name, d) = 0 then pushEntry acc q d else acc)
            acc) p = none := by
        rw [inner_fold_lookup_ne ec q p q.dependencies
          (fun hpq => hq hpq.symm), hacc]
      exact ih hprest hnodup.2 _ hacc2

/-- C8: a declared dependency is flagged unnecessary exactly when the count
of references from the declaring pack to it (counting only resolved defining
packs) is zero, the edge counter agrees with that reference count, and the
whole result map is invariant under reordering of the references. -/
theorem C8_unnecessary_dependencies (packs : List Pack)
    (references : List Reference)
    (hnodup : (packs.map Pack.name).Nodup) (p : Pack) (hp : p ∈ packs) :
    (∀ e, edge_counts references e = refCount references e)
    ∧ lookupEntry (get_unnecessary_dependencies packs references) p
        = (if p.dependencies.filter
              (fun d => decide (refCount references (p.name, d) = 0)) = []
           then none
           else some (p.dependencies.filter
             (fun d => decide (refCount references (p.name, d) = 0))))
    ∧ ∀ references2, references.Perm references2 →
        get_unnecessary_dependencies packs references2
          = get_unnecessary_dependencies packs references := by
  have hec : edge_counts references = refCount references :=
    funext (edge_counts_apply references)
  refine ⟨fun e => congrFun hec e, ?_, ?_⟩
  · have h := outer_fold_lookup_self (edge_counts references) packs p hp
      hnodup [] rfl
    simp only [get_unnecessary_dependencies]
    rw [h, hec]
  · intro references2 hperm
    have hec2 : edge_counts references2 = edge_counts references := by
      funext e
      rw [edge_counts_apply, edge_counts_apply,
        refCount_perm hperm.symm e]
    simp only [get_unnecessary_dependencies, hec2]

/-- C8 witness: `packs/foo` declares `packs/bar` and no reference exercises
the edge, so it is flagged. -/
theorem C8_unnecessary_dependencies_witness :
    (∀ e, edge_counts [] e = refCount [] e)
    ∧ lookupEntry (get_unnecessary_dependencies samplePackSet.packs [])
        samplePackFoo
        = (if samplePackFoo.dependencies.filter
              (fun d => decide (refCount [] (samplePackFoo.name, d) = 0)) = []
           then none
           else some (samplePackFoo.dependencies.filter
             (fun d => decide (refCount [] (samplePackFoo.name, d) = 0))))
    ∧ ∀ references2, List.Perm [] references2 →
        get_unnecessary_dependencies samplePackSet.packs references2
          = get_unnecessary_dependencies samplePackSet.packs [] :=
  C8_unnecessary_dependencies samplePackSet.packs [] (by decide)
    samplePackFoo (by decide)

theorem forPack_name {ps : PackSet} {n : String} {pk : Pack}
    (h : ps.forPack n = Except.ok pk) : pk.name = n := by
  cases hf : ps.packs.find? (fun p => p.name == n) with
  | none => simp [PackSet.forPack, hf] at h
  | some p =>
    have hpn := List.find?_some hf
    simp only [beq_iff_eq] at hpn
    have hp : p = pk := by
      simp only [PackSet.forPack, hf, Except.ok.injEq] at h
      exact h
    subst hp
    exact hpn

theorem addGroupTypes_apply (pname : String) (ts : List String) :
    ∀ m p t, addGroupTypes pname ts m p t
      = m p t + (if p = pname then List.count t ts else 0) := by
  induction ts with
  | nil =>
    intro m p t
    simp [addGroupTypes]
  | cons u us ih =>
    intro m p t
    simp only [addGroupTypes, List.foldl_cons] at ih ⊢
    rw [ih]
    simp only [bumpMap, List.count_cons, beq_iff_eq]
    by_cases hp : p = pname
    · by_cases ht : t = u
      · simp only [hp, ht]
        simp
        omega
      · have htu : ¬ u = t := fun h => ht h.symm
        simp [hp, ht, htu]
    · simp [hp]

theorem addGroups_apply (pname : String)
    (gs : List (String × ViolationGroup)) :
    ∀ m p t, addGroups pname gs m p t
      = m p t + (if p = pname then groupTypeCountAux t gs else 0) := by
  induction gs with
  | nil =>
    intro m p t
    simp [addGroups, groupTypeCountAux]
  | cons cg gs ih =>
    intro m p t
    simp only [addGroups, List.foldl_cons] at ih ⊢
    rw [ih, addGroupTypes_apply]
    simp only [groupTypeCountAux, List.map_cons, List.sum_cons]
    by_cases hp : p = pname
    · simp only [hp, if_true]
      omega
    · simp [hp]

theorem addPackFold_apply (target pname : String)
    (kvs : List (String × List (String × ViolationGroup))) :
    ∀ m p t, (kvs.foldl
        (fun m kv => if kv.1 = target then addGroups pname kv.2 m else m)
        m) p t
      = m p t + (if p = pname then
          ((kvs.filter (fun kv => decide (kv.1 = target))).map (fun kv =>
            groupTypeCountAux t kv.2)).sum
        else 0) := by
  induction kvs with
  | nil =>
    intro m p t
    simp
  | cons kv kvs ih =>
    intro m p t
    simp only [List.foldl_cons, List.filter_cons]
    by_cases hkv : kv.1 = target
    · have hdec : decide (kv.1 = target) = true := decide_eq_true hkv
      rw [if_pos hkv, ih, addGroups_apply, hdec]
      simp only [if_true, List.map_cons, List.sum_cons]
      by_cases hp : p = pname
      · simp only [hp, if_true]
        omega
      · simp [hp]
    · have hdec : decide (kv.1 = target) = false := decide_eq_false hkv
      rw [if_neg hkv, ih, hdec]
      simp

theorem addPack_apply (target : String) (cp : Pack) :
    ∀ m p t, addPack target cp m p t
      = m p t + packContributionAux target p t cp := by
  intro m p t
  by_cases htgt : cp.name = target
  · simp [addPack, htgt, packContributionAux]
  · simp only [addPack, if_neg htgt]
    rw [addPackFold_apply]
    simp only [packContributionAux, ne_eq, htgt, not_false_eq_true, true_and]
    by_cases hp : p = cp.name
    · simp [hp]
    · have hcp : ¬ cp.name = p := fun h => hp h.symm
      simp [hp, hcp]

theorem violationDependentsMap_apply (packs : List Pack) (target : String) :
    ∀ p t, violationDependentsMap packs target p t
      = (packs.map (packContributionAux target p t)).sum := by
  have hfold : ∀ (ps : List Pack) (m : String → String → Nat) p t,
      (ps.foldl (fun m cp => addPack target cp m) m) p t
        = m p t + (ps.map (packContributionAux target p t)).sum := by
    intro ps
    induction ps with
    | nil =>
      intro m p t
      simp
    | cons cp rest ih =>
      intro m p t
      simp only [List.foldl_cons, List.map_cons, List.sum_cons]
      rw [ih, addPack_apply]
      omega
  intro p t
  simp [violationDependentsMap, hfold]

theorem packContributionAux_eq (target p t : String) (cp : Pack)
    (hnodup : ∀ kv ∈ cp.package_todo.violations_by_defining_pack,
      ∀ cg ∈ kv.2, cg.2.violation_types.Nodup) :
    packContributionAux target p t cp = packContribution target p t cp := by
  simp only [packContributionAux, packContribution]
  by_cases hc : cp.name ≠ target ∧ cp.name = p
  · rw [if_pos hc, if_pos hc]
    congr 1
    apply List.map_congr_left
    intro kv hkv
    have hkv2 := (List.mem_filter.mp hkv).1
    simp only [groupTypeCountAux, groupTypeCount]
    congr 1
    apply List.map_congr_left
    intro cg hcg
    have hnd := hnodup kv hkv2 cg hcg
    by_cases hmem : t ∈ cg.2.violation_types
    · rw [if_pos hmem, List.count_eq_one_of_mem hnd hmem]
    · rw [if_neg hmem, List.count_eq_zero.mpr hmem]
  · rw [if_neg hc, if_neg hc]

/-- C9: `find_dependents` returns the names of the other packs that declare
the target as a dependency, sorted; and its violation-dependents counter
agrees with the specification count: one per violation type per baseline
group keyed by the target, accumulated over groups. -/
theorem C9_find_dependents (configuration : Configuration) (target : String)
    (pk : Pack)
    (hpk : configuration.pack_set.forPack target = Except.ok pk)
    (hnodup : ∀ cp ∈ configuration.pack_set.packs,
      ∀ kv ∈ cp.package_todo.violations_by_defining_pack,
      ∀ cg ∈ kv.2, cg.2.violation_types.Nodup) :
    ∃ d, find_dependents configuration target = Except.ok d
      ∧ List.Sorted (· ≤ ·) d.public_dependents
      ∧ d.public_dependents.Perm
          ((configuration.pack_set.packs.filter (fun p2 =>
            decide (p2.name ≠ target ∧ target ∈ p2.dependencies))).map
            Pack.name)
      ∧ ∀ p t, d.violation_dependents p t
          = specViolationCount configuration.pack_set.packs target p t := by
  have hname : pk.name = target := forPack_name hpk
  have heq : find_dependents configuration target = Except.ok
      { public_dependents := List.insertionSort (· ≤ ·)
          ((configuration.pack_set.packs.filter (fun p2 =>
            decide (p2.name ≠ target ∧ target ∈ p2.dependencies))).map
            Pack.name)
        violation_dependents :=
          violationDependentsMap configuration.pack_set.packs target } := by
    simp only [find_dependents, hpk, bind, Bind.bind, Except.bind, pure,
      Except.pure, hname]
  refine ⟨_, heq, ?_, ?_, ?_⟩
  · exact List.sorted_insertionSort _ _
  · exact List.perm_insertionSort _ _
  · intro p t
    simp only [violationDependentsMap_apply, specViolationCount]
    congr 1
    apply List.map_congr_left
    intro cp hcp
    exact packContributionAux_eq target p t cp (hnodup cp hcp)

/-- C9 witness: `packs/bar` has no dependents declaring it, and the baseline
group of `packs/foo` against it is reflected in the violation-dependents
counter. -/
theorem C9_find_dependents_witness :
    ∃ d, find_dependents sampleConfig "packs/bar" = Except.ok d
      ∧ List.Sorted (· ≤ ·) d.public_dependents
      ∧ d.public_dependents.Perm
          ((sampleConfig.pack_set.packs.filter (fun p2 =>
            decide (p2.name ≠ "packs/bar"
              ∧ "packs/bar" ∈ p2.dependencies))).map Pack.name)
      ∧ ∀ p t, d.violation_dependents p t
          = specViolationCount sampleConfig.pack_set.packs "packs/bar" p t :=
  C9_find_dependents sampleConfig "packs/bar" samplePackBar rfl (by decide)

end Pks
